import Mathlib

/-!
Shallow embedding of the log-analysis core of the repository
(`log-utils.mjs` module: `parseLogLine`, `parseTimestamp`,
`isTimestampInRange`, `isErrorLog`, `buildGameStateIndex`,
`getRunContextForLine`, `getLogsFromLine`, `searchLogsFromLine`,
`findErrors`, `getLogsByDate`) together with the exclusion filter
(`shouldExclude` from `log-filter.mjs`).

Modelling conventions:
* The file system is collapsed to the content of the single queried path:
  an argument `content : Option String`, where `none` models
  `existsSync(logPath) = false` and `some c` models a readable file with
  UTF-8 text `c`.
* JavaScript strings are modelled as Lean `String` (well-formed Unicode).
  `Buffer.byteLength(s, "utf-8")` is `utf8Len` (sum of UTF-8 sizes of the
  characters).  JavaScript numbers that hold line numbers / counts are
  `Nat`; fields that can be produced by subtraction are `Int`.
* `new RegExp(pattern, "i")` is abstracted by a parameter
  `compile : String → Option (String → Bool)`: `none` models a `RegExp`
  constructor throw (invalid pattern), `some test` models a compiled
  regex whose `.test` method on a message is `test`.
* The fixed regular expressions of the module (`LOG_LINE_RE`, the
  timestamp formats, `STATE_RE`) are hand-compiled to deterministic
  parsers; determinism of the originals is justified in comments where
  backtracking could in principle occur.
-/

/-! ### Character classes and small string helpers -/

/-- JavaScript `\s` (and the character set removed by `String.prototype.trim`):
whitespace and line terminators. -/
def isJsSpace (c : Char) : Bool :=
  c == ' ' || c == '\t' || c == '\n' || c == '\x0b' || c == '\x0c' || c == '\r' ||
  c == '\u00A0' || c == '\u1680' ||
  (decide ('\u2000' ≤ c) && decide (c ≤ '\u200A')) ||
  c == '\u2028' || c == '\u2029' || c == '\u202F' || c == '\u205F' ||
  c == '\u3000' || c == '\uFEFF'

/-- JavaScript line terminators (which `.` in a regex does not match). -/
def isLineTerm (c : Char) : Bool :=
  c == '\n' || c == '\r' || c == '\u2028' || c == '\u2029'

/-- `[\d:.]` -/
def isTsChar (c : Char) : Bool := c.isDigit || c == ':' || c == '.'

/-- `[a-f0-9]` -/
def isHexLower (c : Char) : Bool :=
  c.isDigit || (decide ('a' ≤ c) && decide (c ≤ 'f'))

/-- `\w` = `[A-Za-z0-9_]` -/
def isWordChar (c : Char) : Bool := c.isAlphanum || c == '_'

/-- `String.prototype.trim`. -/
def jsTrim (s : String) : String :=
  String.mk (((s.toList.dropWhile isJsSpace).reverse.dropWhile isJsSpace).reverse)

/-- `str.startsWith(p)`. -/
def jsStartsWith (s p : String) : Bool := List.isPrefixOf p.toList s.toList

/-- Auxiliary for `strContains`: does `pat` occur in `l` (as a contiguous run)? -/
def listHasInfix (pat : List Char) : List Char → Bool
  | [] => pat.isEmpty
  | c :: cs => List.isPrefixOf pat (c :: cs) || listHasInfix pat cs

/-- `str.includes(pat)`. -/
def strContains (s pat : String) : Bool := listHasInfix pat.toList s.toList

/-- `str.toLowerCase()`.  The labels this is applied to come from `\w+`
captures (ASCII), for which JavaScript `toLowerCase` agrees with the
ASCII lowering `Char.toLower`. -/
def jsToLower (s : String) : String := String.mk (s.toList.map Char.toLower)

/-- `content.split("\n")` (auxiliary, accumulating the current segment
in reverse). -/
def splitNlAux : List Char → List Char → List String
  | [], acc => [String.mk acc.reverse]
  | c :: cs, acc =>
    if c = '\n' then String.mk acc.reverse :: splitNlAux cs []
    else splitNlAux cs (c :: acc)

/-- `content.split("\n")`: keeps empty segments, in particular a trailing
empty string when the content ends with a newline; `"" ↦ [""]`. -/
def splitNl (s : String) : List String := splitNlAux s.toList []

/-- `Buffer.byteLength(s, "utf-8")`. -/
def utf8Len (s : String) : Nat := (s.toList.map Char.utf8Size).sum

/-- `Array.prototype.join("\n")` on the accumulated output lines. -/
def joinLines : List String → String
  | [] => ""
  | [l] => l
  | l :: l₂ :: rest => l ++ "\n" ++ joinLines (l₂ :: rest)

/-- `s.slice(a, b)` for `0 ≤ a ≤ b` (the only use is `slice(11, 19)` on an
ASCII timestamp, where UTF-16 indices coincide with character indices). -/
def jsSlice (s : String) (a b : Nat) : String :=
  String.mk ((s.toList.drop a).take (b - a))

/-- JavaScript truthiness of a nullable string (`null`/`undefined` and `""`
are falsy). -/
def truthyS : Option String → Bool
  | none => false
  | some s => s != ""

/-- `parseInt`-style value of an all-digit character run. -/
def natOfDigits (l : List Char) : Nat :=
  l.foldl (fun a c => a * 10 + (c.toNat - 48)) 0

/-! ### Parser combinators used to hand-compile the anchored regexes -/

/-- Require character `c` next. -/
def plExpect (c : Char) : List Char → Option (List Char)
  | x :: xs => if x = c then some xs else none
  | [] => none

/-- Exactly `n` characters satisfying `p` (`p{n}` for a character class). -/
def plTakeCount (p : Char → Bool) : Nat → List Char → Option (List Char × List Char)
  | 0, l => some ([], l)
  | _ + 1, [] => none
  | n + 1, c :: cs =>
    if p c then (plTakeCount p n cs).map (fun x => (c :: x.1, x.2)) else none

/-- The maximal non-empty run of characters satisfying `p` (`p+` for a
character class; greedy, which is the unique match whenever the following
regex token is outside the class). -/
def plTakeSome (p : Char → Bool) (l : List Char) : Option (List Char × List Char) :=
  let r := l.span p
  if r.1.isEmpty then none else some r

/-! ### `parseLogLine` — the anchored regex `LOG_LINE_RE`:
`^(\d{4}-\d{2}-\d{2}T[\d:.]+Z),[\d.]+,[a-f0-9]+,\d+(?:,(\w+))?\s*\[([^\]]+)\]\s*(.*)$`
Greedy runs are deterministic here: each `X+` / `X{n}` is followed by a
character outside its class (`Z` after `[\d:.]+`, `,` after `[\d.]+` and
`[a-f0-9]+`, and `\w+`, `\s*`, `[` are pairwise disjoint), so no
backtracking into a run can succeed. -/

structure LogEntry where
  timestamp : String
  level : String
  category : String
  message : String
  raw : String
  lineNum : Nat
  runContext : String
deriving DecidableEq, Repr

/-- The group `(\d{4}-\d{2}-\d{2}T[\d:.]+Z)`; returns the captured text and
the rest of the input. -/
def plTimestamp (l : List Char) : Option (List Char × List Char) := do
  let (d1, l1) ← plTakeCount Char.isDigit 4 l
  let l2 ← plExpect '-' l1
  let (d2, l3) ← plTakeCount Char.isDigit 2 l2
  let l4 ← plExpect '-' l3
  let (d3, l5) ← plTakeCount Char.isDigit 2 l4
  let l6 ← plExpect 'T' l5
  let (tm, l7) ← plTakeSome isTsChar l6
  let l8 ← plExpect 'Z' l7
  some (d1 ++ '-' :: d2 ++ '-' :: d3 ++ 'T' :: tm ++ ['Z'], l8)

/-- `(?:,(\w+))?\s*\[`: the optional level group followed by whitespace and
the opening bracket.  If the level branch is tried (a comma follows) but
cannot be completed through `\s*\[`, the regex engine falls back to
skipping the optional group, which then requires `\s*\[` directly at the
comma (shortening the `\w+` run cannot help since `\w`, `\s`, `[` are
pairwise disjoint).  Returns the optional level capture and the input
right after `[`. -/
def plLevelBracket (l : List Char) : Option (Option (List Char) × List Char) :=
  let fallback : Option (Option (List Char) × List Char) :=
    match (l.dropWhile isJsSpace) with
    | '[' :: r => some (none, r)
    | _ => none
  match l with
  | ',' :: l1 =>
    match plTakeSome isWordChar l1 with
    | some (w, l2) =>
      match (l2.dropWhile isJsSpace) with
      | '[' :: r => some (some w, r)
      | _ => fallback
    | none => fallback
  | _ => fallback

/-- `parseLogLine(line, lineNum)`.  The final `\s*(.*)$` (no `m`/`s` flags)
matches iff after skipping whitespace the remainder contains no line
terminator; the message capture is that remainder. -/
def parseLogLine (line : String) (lineNum : Nat := 0) : Option LogEntry := do
  let (ts, l1) ← plTimestamp line.toList
  let l2 ← plExpect ',' l1
  let (_, l3) ← plTakeSome (fun c => c.isDigit || c == '.') l2
  let l4 ← plExpect ',' l3
  let (_, l5) ← plTakeSome isHexLower l4
  let l6 ← plExpect ',' l5
  let (_, l7) ← plTakeSome Char.isDigit l6
  let (lvl, l8) ← plLevelBracket l7
  let (cat, l9) ← plTakeSome (fun c => !(c == ']')) l8
  let l10 ← plExpect ']' l9
  let msg := l10.dropWhile isJsSpace
  if msg.any isLineTerm then none
  else
    some {
      timestamp := String.mk ts
      level := match lvl with | some w => String.mk w | none => "Info"
      category := String.mk cat
      message := String.mk msg
      raw := line
      lineNum := lineNum
      runContext := "unknown" }

/-! ### `parseTimestamp` / `isTimestampInRange` -/

/-- Hinnant's `days_from_civil` (days since 1970-01-01 of year/month/day,
month in `1..12`, arbitrary day with linear overflow). -/
def daysFromCivil (y m d : Int) : Int :=
  let y1 := if m ≤ 2 then y - 1 else y
  let era := Int.fdiv y1 400
  let yoe := y1 - era * 400
  let mp := Int.emod (m + 9) 12
  let doy := Int.fdiv (153 * mp + 2) 5 + d - 1
  let doe := yoe * 365 + Int.fdiv yoe 4 - Int.fdiv yoe 100 + doy
  era * 146097 + doe - 719468

/-- `Date.UTC(y, mo0, d, h, mi, s, ms)` in milliseconds, with JavaScript's
field normalisation (out-of-range fields roll over) and the two-digit-year
rule (`0 ≤ y ≤ 99` means `1900 + y`). -/
def dateUTC (y mo0 d h mi s ms : Int) : Int :=
  let y0 := if 0 ≤ y ∧ y ≤ 99 then y + 1900 else y
  let y2 := y0 + Int.fdiv mo0 12
  let m2 := Int.emod mo0 12 + 1
  daysFromCivil y2 m2 d * 86400000 + h * 3600000 + mi * 60000 + s * 1000 + ms

/-- `^(\d{4})-(\d{2})-(\d{2})` -/
def ptDate (l : List Char) : Option (Nat × Nat × Nat × List Char) := do
  let (y, l1) ← plTakeCount Char.isDigit 4 l
  let l2 ← plExpect '-' l1
  let (mo, l3) ← plTakeCount Char.isDigit 2 l2
  let l4 ← plExpect '-' l3
  let (d, l5) ← plTakeCount Char.isDigit 2 l4
  some (natOfDigits y, natOfDigits mo, natOfDigits d, l5)

/-- `T(\d{2}):(\d{2}):(\d{2})` -/
def ptTime (l : List Char) : Option (Nat × Nat × Nat × List Char) := do
  let l0 ← plExpect 'T' l
  let (h, l1) ← plTakeCount Char.isDigit 2 l0
  let l2 ← plExpect ':' l1
  let (mi, l3) ← plTakeCount Char.isDigit 2 l2
  let l4 ← plExpect ':' l3
  let (s, l5) ← plTakeCount Char.isDigit 2 l4
  some (natOfDigits h, natOfDigits mi, natOfDigits s, l5)

/-- `ms.slice(0, 3).padEnd(3, "0")` as a number. -/
def msOfFrac (frac : List Char) : Nat :=
  let t := frac.take 3
  natOfDigits (t ++ List.replicate (3 - t.length) '0')

/-- Format 1: `^(\d{4})-(\d{2})-(\d{2})T(\d{2}):(\d{2}):(\d{2})\.(\d+)Z$` -/
def ptFormat1 (l : List Char) : Option Int := do
  let (y, mo, d, l1) ← ptDate l
  let (h, mi, s, l2) ← ptTime l1
  let l3 ← plExpect '.' l2
  let (frac, l4) ← plTakeSome Char.isDigit l3
  let l5 ← plExpect 'Z' l4
  if l5.isEmpty then
    some (dateUTC y ((mo : Int) - 1) d h mi s (msOfFrac frac))
  else none

/-- Format 2: `^(\d{4})-(\d{2})-(\d{2})T(\d{2}):(\d{2}):(\d{2})Z$` -/
def ptFormat2 (l : List Char) : Option Int := do
  let (y, mo, d, l1) ← ptDate l
  let (h, mi, s, l2) ← ptTime l1
  let l3 ← plExpect 'Z' l2
  if l3.isEmpty then some (dateUTC y ((mo : Int) - 1) d h mi s 0) else none

/-- Format 3: `^(\d{4})-(\d{2})-(\d{2})T(\d{2}):(\d{2}):(\d{2})$` -/
def ptFormat3 (l : List Char) : Option Int := do
  let (y, mo, d, l1) ← ptDate l
  let (h, mi, s, l2) ← ptTime l1
  if l2.isEmpty then some (dateUTC y ((mo : Int) - 1) d h mi s 0) else none

/-- Format 4: `^(\d{4})-(\d{2})-(\d{2})$` -/
def ptFormat4 (l : List Char) : Option Int := do
  let (y, mo, d, l1) ← ptDate l
  if l1.isEmpty then some (dateUTC y ((mo : Int) - 1) d 0 0 0 0) else none

/-- `parseTimestamp(str)`: the four formats in priority order.  The result
is the `Date` value in epoch milliseconds (a JavaScript `Date` object is
always truthy, hence the `Option`, not the value, carries "falsiness"). -/
def parseTimestamp (str : String) : Option Int :=
  if str == "" then none
  else
    match ptFormat1 str.toList with
    | some v => some v
    | none =>
      match ptFormat2 str.toList with
      | some v => some v
      | none =>
        match ptFormat3 str.toList with
        | some v => some v
        | none => ptFormat4 str.toList

/-- `isTimestampInRange(timestamp, startDate, endDate)`.  A 10-character
`endDate` that parses can only have matched the bare-date format, so the
`getUTC*`-based expansion to `23:59:59.999` of the same civil day equals
adding `86399999` ms to that day's midnight. -/
def isTimestampInRange (timestamp : String) (startDate : Option String := none)
    (endDate : Option String := none) : Bool :=
  if !(truthyS startDate) && !(truthyS endDate) then true
  else
    match parseTimestamp timestamp with
    | none => false
    | some ts =>
      let sOk :=
        match startDate with
        | none => true
        | some sd =>
          if sd == "" then true
          else
            match parseTimestamp sd with
            | none => true
            | some st => !(decide (ts < st))
      let eOk :=
        match endDate with
        | none => true
        | some ed =>
          if ed == "" then true
          else
            match parseTimestamp ed with
            | none => true
            | some e0 =>
              let e := if ed.length = 10 then e0 + 86399999 else e0
              !(decide (e < ts))
      sOk && eOk

/-! ### Exclusion filter (`log-filter.mjs`) -/

def EXCLUDE_PREFIXES : List String := [
  "Info:",
  "RobloxGitHash:",
  "Studio Version:",
  "Studio Architecture:",
  "Server RobloxGitHash:",
  "Server Prefix:",
  "*******",
  "Creating PolicyContext",
  "BaseUrl:",
  "settingsUrl:",
  "Session GUID",
  "Machine GUID",
  "Studio Launch Intent",
  "Is Studio Configured",
  "Reflection::load",
  "setAssetFolder",
  "setExtraAssetFolder",
  "isSupportedInstallLocation",
  "preferredLocale",
  "systemLocale",
  "Studio D3D",
  "ESGamePerfMonitor",
  "ABTestFramework",
  "Loading Lua Ribbon",
  "TeamCreateWidget",
  "Web returned cloud plugins",
  "The MCP Studio plugin",
  "Flag ",
  "Evaluating deferred",
  "已创建自动恢复文件",
  "Auto-recovery file",
  "Started network server",
  "New connection from",
  "Disconnect from",
  "Connecting to",
  "Joining game",
  "! Joining game",
  "Player ",
  "sendMLCodeCompletionHttpRequest",
  "UpdateManager::",
  "Warning: Failed to apply StyleRule",
  "On child added called",
  "On child removed called",
  "Action "]

def EXCLUDE_CONTAINS : List String := [
  "referenced from Lua",
  "Redundant Flag ID",
  "Asset (Image)",
  "load failed:"]

/-- `shouldExclude(message)` from `log-filter.mjs`. -/
def shouldExclude (message : String) : Bool :=
  if message == "" || jsTrim message == "" then true
  else if EXCLUDE_PREFIXES.any (fun p => jsStartsWith message p) then true
  else if EXCLUDE_CONTAINS.any (fun sub => strContains message sub) then true
  else false

/-! ### Error classification -/

def DEFAULT_CATEGORIES : List String := ["FLog::Output", "FLog::Warning", "FLog::Error"]

def ERROR_CATEGORIES : List String := ["FLog::Warning", "FLog::Error", "DFLog::HttpTraceError"]

/-- `isErrorLog(entry)`. -/
def isErrorLog (entry : LogEntry) : Bool :=
  if ERROR_CATEGORIES.contains entry.category then true
  else
    let lvl := jsToLower entry.level
    lvl == "warning" || lvl == "error"

/-! ### Run-context index (`buildGameStateIndex`, `getRunContextForLine`) -/

structure StateRange where
  state : String
  startLine : Nat
  endLine : Int
  startTime : String
  endTime : String
deriving DecidableEq, Repr

/-- The literal part of
`STATE_RE = /Setting StudioGameStateType to StudioGameStateType_(\w+)/`. -/
def STATE_LIT : List Char := "Setting StudioGameStateType to StudioGameStateType_".toList

/-- `STATE_RE.exec(line)`: the leftmost position where the literal occurs
followed by at least one `\w` character; captures the maximal `\w+` run. -/
def execStateRe : List Char → Option String
  | [] => none
  | c :: cs =>
    if List.isPrefixOf STATE_LIT (c :: cs) then
      match plTakeSome isWordChar ((c :: cs).drop STATE_LIT.length) with
      | some (w, _) => some (String.mk w)
      | none => execStateRe cs
    else execStateRe cs

/-- The scanning loop of `buildGameStateIndex`: state variables
(`currentState`, `currentStartLine`, `currentStartTime`, `ranges`) are
threaded explicitly; on end of input the final open range is pushed. -/
def buildGameStateLoop : List String → Nat → String → Nat → String →
    List StateRange → List StateRange
  | [], _, currentState, currentStartLine, currentStartTime, ranges =>
    if 0 < currentStartLine then
      ranges ++ [{ state := currentState, startLine := currentStartLine,
                   endLine := -1, startTime := currentStartTime, endTime := "" }]
    else ranges
  | line :: rest, i, currentState, currentStartLine, currentStartTime, ranges =>
    let lineNum := i + 1
    if !(strContains line "AssetDataModelManager") then
      buildGameStateLoop rest (i + 1) currentState currentStartLine currentStartTime ranges
    else
      match execStateRe line.toList with
      | none =>
        buildGameStateLoop rest (i + 1) currentState currentStartLine currentStartTime ranges
      | some newState =>
        let timestamp :=
          match parseLogLine (jsTrim line) lineNum with
          | some e => e.timestamp
          | none => ""
        let ranges2 :=
          if 0 < currentStartLine then
            ranges ++ [{ state := currentState, startLine := currentStartLine,
                         endLine := (lineNum : Int) - 1,
                         startTime := currentStartTime, endTime := timestamp }]
          else ranges
        buildGameStateLoop rest (i + 1) newState lineNum timestamp ranges2

/-- `buildGameStateIndex(logPath)`; `none` models a missing file. -/
def buildGameStateIndex (content : Option String) : List StateRange :=
  match content with
  | none => []
  | some c => buildGameStateLoop (splitNl c) 0 "Edit" 1 "" []

/-- `getRunContextForLine(lineNum, stateRanges)`: a containing range whose
lowercased label contains no recognised marker falls through to the
remaining ranges. -/
def getRunContextForLine (lineNum : Nat) : List StateRange → String
  | [] => "unknown"
  | r :: rest =>
    if r.startLine ≤ lineNum ∧ (r.endLine = -1 ∨ (lineNum : Int) ≤ r.endLine) then
      let state := jsToLower r.state
      if strContains state "server" || strContains state "client" then "play"
      else if strContains state "edit" then "edit"
      else getRunContextForLine lineNum rest
    else getRunContextForLine lineNum rest

/-! ### Query engine: options and result shapes -/

/-- Options destructured by `getLogsFromLine` (and, with the same fields
and defaults, by `searchLogsFromLine`). -/
structure GetLogsOptions where
  afterLine : Option Int := none
  beforeLine : Option Int := none
  startDate : Option String := none
  endDate : Option String := none
  timestamps : Bool := false
  categories : Option (List String) := none
  applyFilter : Bool := true
  runContext : Option String := none
  includeContext : Bool := false
deriving DecidableEq, Repr

/-- Options destructured by `findErrors`.  `maxErrors` is a count cap and
is modelled as a natural number. -/
structure FindErrorsOptions where
  afterLine : Option Int := none
  beforeLine : Option Int := none
  startDate : Option String := none
  endDate : Option String := none
  runContext : Option String := none
  maxErrors : Nat := 100
deriving DecidableEq, Repr

/-- Options destructured by `getLogsByDate` (note `timestamps = true` by
default there). -/
structure GetLogsByDateOptions where
  startDate : Option String := none
  endDate : Option String := none
  timestamps : Bool := true
  categories : Option (List String) := none
  applyFilter : Bool := true
  runContext : Option String := none
  includeContext : Bool := false
deriving DecidableEq, Repr

structure GetLogsResult where
  logs : String
  startLine : Nat
  lastLine : Nat
  remaining : Int
  hasMore : Bool
deriving DecidableEq, Repr

inductive SearchResult where
  | err (message : String)
  | ok (logs : String) (startLine : Nat) (lastLine : Nat) (matchCount : Nat)
      (remaining : Int) (hasMore : Bool)
deriving DecidableEq, Repr

structure ErrorEntry where
  line : Nat
  timestamp : String
  message : String
  category : String
  level : String
  context : String
deriving DecidableEq, Repr

structure FindErrorsResult where
  hasError : Bool
  errorCount : Nat
  errors : List ErrorEntry
deriving DecidableEq, Repr

def MAX_BYTES : Nat := 32000

/-- `{ logs: "", startLine: 0, lastLine: 0, remaining: 0, hasMore: false }` -/
def emptyGetLogsResult : GetLogsResult :=
  { logs := "", startLine := 0, lastLine := 0, remaining := 0, hasMore := false }

/-- `{ logs: "", startLine: 0, lastLine: 0, matchCount: 0, remaining: 0, hasMore: false }` -/
def emptySearchResult : SearchResult := .ok "" 0 0 0 0 false

/-- `{ hasError: false, errorCount: 0, errors: [] }` -/
def emptyFindErrorsResult : FindErrorsResult :=
  { hasError := false, errorCount := 0, errors := [] }

/-- `if (afterLine !== null && lineNum <= afterLine) continue` -/
def afterSkip (afterLine : Option Int) (lineNum : Nat) : Bool :=
  match afterLine with
  | some a => decide ((lineNum : Int) ≤ a)
  | none => false

/-- `if (beforeLine !== null && lineNum >= beforeLine) break` -/
def beforeStop (beforeLine : Option Int) (lineNum : Nat) : Bool :=
  match beforeLine with
  | some b => decide ((b : Int) ≤ (lineNum : Nat))
  | none => false

/-- `categories || DEFAULT_CATEGORIES`. -/
def glCats (opts : GetLogsOptions) : List String :=
  opts.categories.getD DEFAULT_CATEGORIES

/-- The state index built when a run-context is requested or displayed:
`(runContext || includeContext) ? buildGameStateIndex(logPath) : []`. -/
def glRanges (c : String) (opts : GetLogsOptions) : List StateRange :=
  if truthyS opts.runContext || opts.includeContext then buildGameStateIndex (some c)
  else []

/-- `{play: "[P]", edit: "[E]", unknown: "[?]"}[rc] || "[?]"` -/
def ctxLabel (rc : String) : String :=
  if rc == "play" then "[P]" else if rc == "edit" then "[E]" else "[?]"

/-- The per-line filter chain of the `getLogsFromLine` loop body (trim,
parse, category allow-list, exclusion filter, date range, run-context),
returning the surviving entry with its `runContext` field set exactly when
the loop sets it. -/
def glStep (opts : GetLogsOptions) (cats : List String) (stateRanges : List StateRange)
    (lineNum : Nat) (rawLine : String) : Option LogEntry :=
  let line := jsTrim rawLine
  if line == "" then none
  else
    match parseLogLine line lineNum with
    | none => none
    | some entry =>
      if 0 < cats.length && !(cats.contains entry.category) then none
      else if opts.applyFilter && shouldExclude entry.message then none
      else if (truthyS opts.startDate || truthyS opts.endDate) &&
          !(isTimestampInRange entry.timestamp opts.startDate opts.endDate) then none
      else if truthyS opts.runContext || opts.includeContext then
        let ctx := getRunContextForLine lineNum stateRanges
        let entry := { entry with runContext := ctx }
        if truthyS opts.runContext && !(opts.runContext == some ctx) then none
        else some entry
      else some entry

/-- Output-line formatting of `getLogsFromLine` (`parts.join(" ")`). -/
def glFormat (opts : GetLogsOptions) (entry : LogEntry) : String :=
  let parts : List String :=
    (if opts.includeContext then [ctxLabel entry.runContext] else []) ++
    (if opts.timestamps then ["[" ++ jsSlice entry.timestamp 11 19 ++ "]"] else []) ++
    [entry.message]
  String.intercalate " " parts

/-- The mutable locals of the `getLogsFromLine` loop.  `remaining` is the
source's running counter of *all* matched lines (the result field
`remaining` subtracts the returned count at the end). -/
structure GetLogsState where
  startLine : Option Nat
  lastLine : Nat
  currentBytes : Nat
  logLines : List String
  remaining : Nat
  bytesExceeded : Bool
deriving DecidableEq, Repr

def initGetLogsState : GetLogsState :=
  { startLine := none, lastLine := 0, currentBytes := 0, logLines := [],
    remaining := 0, bytesExceeded := false }

/-- The scan loop of `getLogsFromLine` over the split lines (`i` is the
0-based index, `lineNum = i + 1`). -/
def getLogsLoop (opts : GetLogsOptions) (cats : List String)
    (stateRanges : List StateRange) : List String → Nat → GetLogsState → GetLogsState
  | [], _, st => st
  | rawLine :: rest, i, st =>
    let lineNum := i + 1
    if afterSkip opts.afterLine lineNum then
      getLogsLoop opts cats stateRanges rest (i + 1) st
    else if beforeStop opts.beforeLine lineNum then st
    else
      match glStep opts cats stateRanges lineNum rawLine with
      | none => getLogsLoop opts cats stateRanges rest (i + 1) st
      | some entry =>
        let st1 : GetLogsState := { st with remaining := st.remaining + 1 }
        if st1.bytesExceeded then getLogsLoop opts cats stateRanges rest (i + 1) st1
        else
          let outputLine := glFormat opts entry
          let lineBytes := utf8Len outputLine + 1
          if MAX_BYTES < st1.currentBytes + lineBytes ∧ 0 < st1.logLines.length then
            getLogsLoop opts cats stateRanges rest (i + 1) { st1 with bytesExceeded := true }
          else
            getLogsLoop opts cats stateRanges rest (i + 1)
              { startLine := if st1.startLine = none then some lineNum else st1.startLine
                lastLine := lineNum
                currentBytes := st1.currentBytes + lineBytes
                logLines := st1.logLines ++ [outputLine]
                remaining := st1.remaining
                bytesExceeded := st1.bytesExceeded }

/-- Assembling the result record of `getLogsFromLine` from the final loop
state (`returnedCount = logLines.length`). -/
def mkGetLogsResult (st : GetLogsState) : GetLogsResult :=
  { logs := joinLines st.logLines
    startLine := st.startLine.getD 0
    lastLine := st.lastLine
    remaining := (st.remaining : Int) - st.logLines.length
    hasMore := decide (st.logLines.length < st.remaining) }

/-- `getLogsFromLine(logPath, options)`. -/
def getLogsFromLine (content : Option String) (opts : GetLogsOptions := {}) :
    GetLogsResult :=
  match content with
  | none => emptyGetLogsResult
  | some c =>
    mkGetLogsResult (getLogsLoop opts (glCats opts) (glRanges c opts) (splitNl c) 0
      initGetLogsState)

/-! #### Specification-side decomposition of the `getLogsFromLine` loop:
the list of lines that pass all filters in the requested range
(`glMatches`), and the emission/accounting pass over that list
(`glEmit`).  `getLogsLoop` is proved equal to their composition. -/

/-- The lines of the scan (with their line numbers and surviving entries)
that pass the line-number bounds and the whole filter chain: the lines the
source counts in `remaining`.  This is the claim-level notion of "lines
that passed all filters". -/
def glMatches (opts : GetLogsOptions) (cats : List String)
    (stateRanges : List StateRange) : List String → Nat → List (Nat × LogEntry)
  | [], _ => []
  | rawLine :: rest, i =>
    let lineNum := i + 1
    if afterSkip opts.afterLine lineNum then glMatches opts cats stateRanges rest (i + 1)
    else if beforeStop opts.beforeLine lineNum then []
    else
      match glStep opts cats stateRanges lineNum rawLine with
      | none => glMatches opts cats stateRanges rest (i + 1)
      | some entry => (lineNum, entry) :: glMatches opts cats stateRanges rest (i + 1)

/-- The counting/emission part of the `getLogsFromLine` loop body, run over
the already-filtered lines (paired with their formatted output). -/
def glEmit : GetLogsState → List (Nat × String) → GetLogsState
  | st, [] => st
  | st, (lineNum, outputLine) :: rest =>
    let st1 : GetLogsState := { st with remaining := st.remaining + 1 }
    if st1.bytesExceeded then glEmit st1 rest
    else
      let lineBytes := utf8Len outputLine + 1
      if MAX_BYTES < st1.currentBytes + lineBytes ∧ 0 < st1.logLines.length then
        glEmit { st1 with bytesExceeded := true } rest
      else
        glEmit
          { startLine := if st1.startLine = none then some lineNum else st1.startLine
            lastLine := lineNum
            currentBytes := st1.currentBytes + lineBytes
            logLines := st1.logLines ++ [outputLine]
            remaining := st1.remaining
            bytesExceeded := st1.bytesExceeded } rest

/-- The matched lines of a `getLogsFromLine` call on an existing file. -/
def glMatchedOf (c : String) (opts : GetLogsOptions) : List (Nat × LogEntry) :=
  glMatches opts (glCats opts) (glRanges c opts) (splitNl c) 0

/-- The final loop state of a `getLogsFromLine` call on an existing file. -/
def glFinalOf (c : String) (opts : GetLogsOptions) : GetLogsState :=
  getLogsLoop opts (glCats opts) (glRanges c opts) (splitNl c) 0 initGetLogsState

/-- The output lines actually emitted by a `getLogsFromLine` call on an
existing file. -/
def glEmittedOf (c : String) (opts : GetLogsOptions) : List String :=
  (glFinalOf c opts).logLines

/-! ### `searchLogsFromLine` -/

/-- The per-line filter chain of the `searchLogsFromLine` loop body: the
same chain as `getLogsFromLine` (same order: trim, parse, categories,
exclusion, dates, run-context) followed by `regex.test(entry.message)`. -/
def srStep (test : String → Bool) (opts : GetLogsOptions) (cats : List String)
    (stateRanges : List StateRange) (lineNum : Nat) (rawLine : String) : Option LogEntry :=
  match glStep opts cats stateRanges lineNum rawLine with
  | none => none
  | some entry => if test entry.message then some entry else none

/-- Output-line formatting of `searchLogsFromLine`: the line number prefix
`` `${lineNum}|` `` followed by the `getLogsFromLine` parts. -/
def srFormat (opts : GetLogsOptions) (lineNum : Nat) (entry : LogEntry) : String :=
  let parts : List String :=
    [toString lineNum ++ "|"] ++
    (if opts.includeContext then [ctxLabel entry.runContext] else []) ++
    (if opts.timestamps then ["[" ++ jsSlice entry.timestamp 11 19 ++ "]"] else []) ++
    [entry.message]
  String.intercalate " " parts

/-- The mutable locals of the `searchLogsFromLine` loop; `matchCount` is
the source's running counter of *all* matching lines. -/
structure SearchState where
  startLine : Option Nat
  lastLine : Nat
  currentBytes : Nat
  logLines : List String
  matchCount : Nat
  bytesExceeded : Bool
deriving DecidableEq, Repr

def initSearchState : SearchState :=
  { startLine := none, lastLine := 0, currentBytes := 0, logLines := [],
    matchCount := 0, bytesExceeded := false }

/-- The scan loop of `searchLogsFromLine`. -/
def searchLoop (test : String → Bool) (opts : GetLogsOptions) (cats : List String)
    (stateRanges : List StateRange) : List String → Nat → SearchState → SearchState
  | [], _, st => st
  | rawLine :: rest, i, st =>
    let lineNum := i + 1
    if afterSkip opts.afterLine lineNum then
      searchLoop test opts cats stateRanges rest (i + 1) st
    else if beforeStop opts.beforeLine lineNum then st
    else
      match srStep test opts cats stateRanges lineNum rawLine with
      | none => searchLoop test opts cats stateRanges rest (i + 1) st
      | some entry =>
        let st1 : SearchState := { st with matchCount := st.matchCount + 1 }
        if st1.bytesExceeded then searchLoop test opts cats stateRanges rest (i + 1) st1
        else
          let outputLine := srFormat opts lineNum entry
          let lineBytes := utf8Len outputLine + 1
          if MAX_BYTES < st1.currentBytes + lineBytes ∧ 0 < st1.logLines.length then
            searchLoop test opts cats stateRanges rest (i + 1) { st1 with bytesExceeded := true }
          else
            searchLoop test opts cats stateRanges rest (i + 1)
              { startLine := if st1.startLine = none then some lineNum else st1.startLine
                lastLine := lineNum
                currentBytes := st1.currentBytes + lineBytes
                logLines := st1.logLines ++ [outputLine]
                matchCount := st1.matchCount
                bytesExceeded := st1.bytesExceeded }

/-- Assembling the success record of `searchLogsFromLine`: note that the
*field* `matchCount` is `returnedCount` (the number of emitted lines), and
`remaining` is the internal match counter minus `returnedCount`. -/
def mkSearchResult (st : SearchState) : SearchResult :=
  .ok (joinLines st.logLines) (st.startLine.getD 0) st.lastLine st.logLines.length
    ((st.matchCount : Int) - st.logLines.length)
    (decide (st.logLines.length < st.matchCount))

/-- `searchLogsFromLine(logPath, pattern, options)`.  `compile` abstracts
`new RegExp(pattern, "i")` (`none` = constructor throws); as in the
source, the existence check precedes regex compilation. -/
def searchLogsFromLine (compile : String → Option (String → Bool))
    (content : Option String) (pattern : String) (opts : GetLogsOptions := {}) :
    SearchResult :=
  match content with
  | none => emptySearchResult
  | some c =>
    match compile pattern with
    | none => SearchResult.err ("Invalid regex pattern: " ++ pattern)
    | some regex =>
      mkSearchResult (searchLoop regex opts (glCats opts) (glRanges c opts) (splitNl c) 0
        initSearchState)

/-- The lines that pass the bounds, the filter chain and the pattern test
(the lines the source counts in its internal `matchCount`). -/
def srMatches (test : String → Bool) (opts : GetLogsOptions) (cats : List String)
    (stateRanges : List StateRange) : List String → Nat → List (Nat × LogEntry)
  | [], _ => []
  | rawLine :: rest, i =>
    let lineNum := i + 1
    if afterSkip opts.afterLine lineNum then srMatches test opts cats stateRanges rest (i + 1)
    else if beforeStop opts.beforeLine lineNum then []
    else
      match srStep test opts cats stateRanges lineNum rawLine with
      | none => srMatches test opts cats stateRanges rest (i + 1)
      | some entry => (lineNum, entry) :: srMatches test opts cats stateRanges rest (i + 1)

/-- The counting/emission part of the `searchLogsFromLine` loop body. -/
def srEmit : SearchState → List (Nat × String) → SearchState
  | st, [] => st
  | st, (lineNum, outputLine) :: rest =>
    let st1 : SearchState := { st with matchCount := st.matchCount + 1 }
    if st1.bytesExceeded then srEmit st1 rest
    else
      let lineBytes := utf8Len outputLine + 1
      if MAX_BYTES < st1.currentBytes + lineBytes ∧ 0 < st1.logLines.length then
        srEmit { st1 with bytesExceeded := true } rest
      else
        srEmit
          { startLine := if st1.startLine = none then some lineNum else st1.startLine
            lastLine := lineNum
            currentBytes := st1.currentBytes + lineBytes
            logLines := st1.logLines ++ [outputLine]
            matchCount := st1.matchCount
            bytesExceeded := st1.bytesExceeded } rest

/-- The matching lines of a `searchLogsFromLine` call on an existing file
whose pattern compiled to `test`. -/
def srMatchedOf (test : String → Bool) (c : String) (opts : GetLogsOptions) :
    List (Nat × LogEntry) :=
  srMatches test opts (glCats opts) (glRanges c opts) (splitNl c) 0

/-- The final loop state of such a call. -/
def srFinalOf (test : String → Bool) (c : String) (opts : GetLogsOptions) : SearchState :=
  searchLoop test opts (glCats opts) (glRanges c opts) (splitNl c) 0 initSearchState

/-- The output lines actually emitted by such a call. -/
def srEmittedOf (test : String → Bool) (c : String) (opts : GetLogsOptions) : List String :=
  (srFinalOf test c opts).logLines

/-! ### `findErrors` -/

/-- The per-line filter chain of the `findErrors` loop body, returning the
record that would be pushed (including its resolved `context`, which the
source leaves at `"unknown"` when no state index was built). -/
def feStep (o : FindErrorsOptions) (stateRanges : List StateRange) (lineNum : Nat)
    (rawLine : String) : Option ErrorEntry :=
  let line := jsTrim rawLine
  if line == "" then none
  else
    match parseLogLine line lineNum with
    | none => none
    | some entry =>
      if !(isErrorLog entry) then none
      else if shouldExclude entry.message then none
      else if (truthyS o.startDate || truthyS o.endDate) &&
          !(isTimestampInRange entry.timestamp o.startDate o.endDate) then none
      else if 0 < stateRanges.length then
        let ctx := getRunContextForLine lineNum stateRanges
        if truthyS o.runContext && !(o.runContext == some ctx) then none
        else
          some { line := lineNum, timestamp := entry.timestamp,
                 message := entry.message, category := entry.category,
                 level := entry.level, context := ctx }
      else
        some { line := lineNum, timestamp := entry.timestamp,
               message := entry.message, category := entry.category,
               level := entry.level, context := "unknown" }

/-- The mutable locals of the `findErrors` loop. -/
structure FindErrorsState where
  errors : List ErrorEntry
  totalErrors : Nat
deriving DecidableEq, Repr

def initFindErrorsState : FindErrorsState := { errors := [], totalErrors := 0 }

/-- The scan loop of `findErrors`: every match increments `totalErrors`;
the record is pushed only while `errors.length < maxErrors`. -/
def findErrorsLoop (o : FindErrorsOptions) (stateRanges : List StateRange) :
    List String → Nat → FindErrorsState → FindErrorsState
  | [], _, st => st
  | rawLine :: rest, i, st =>
    let lineNum := i + 1
    if afterSkip o.afterLine lineNum then findErrorsLoop o stateRanges rest (i + 1) st
    else if beforeStop o.beforeLine lineNum then st
    else
      match feStep o stateRanges lineNum rawLine with
      | none => findErrorsLoop o stateRanges rest (i + 1) st
      | some e =>
        let st1 : FindErrorsState := { st with totalErrors := st.totalErrors + 1 }
        let st2 : FindErrorsState :=
          if st1.errors.length < o.maxErrors then { st1 with errors := st1.errors ++ [e] }
          else st1
        findErrorsLoop o stateRanges rest (i + 1) st2

/-- The state index built by `findErrors`:
`runContext ? buildGameStateIndex(logPath) : []`. -/
def feRanges (c : String) (o : FindErrorsOptions) : List StateRange :=
  if truthyS o.runContext then buildGameStateIndex (some c) else []

/-- `findErrors(logPath, options)`. -/
def findErrors (content : Option String) (o : FindErrorsOptions := {}) :
    FindErrorsResult :=
  match content with
  | none => emptyFindErrorsResult
  | some c =>
    let st := findErrorsLoop o (feRanges c o) (splitNl c) 0 initFindErrorsState
    { hasError := decide (0 < st.totalErrors), errorCount := st.totalErrors,
      errors := st.errors }

/-- The matching error records of a `findErrors` call on an existing file:
the claim-level "true total of matching error records in the requested
range". -/
def feMatches (o : FindErrorsOptions) (stateRanges : List StateRange) :
    List String → Nat → List ErrorEntry
  | [], _ => []
  | rawLine :: rest, i =>
    let lineNum := i + 1
    if afterSkip o.afterLine lineNum then feMatches o stateRanges rest (i + 1)
    else if beforeStop o.beforeLine lineNum then []
    else
      match feStep o stateRanges lineNum rawLine with
      | none => feMatches o stateRanges rest (i + 1)
      | some e => e :: feMatches o stateRanges rest (i + 1)

/-- The matched error records of a `findErrors` call on an existing file. -/
def feMatchedOf (c : String) (o : FindErrorsOptions) : List ErrorEntry :=
  feMatches o (feRanges c o) (splitNl c) 0

/-! ### `getLogsByDate` -/

/-- `getLogsByDate(logPath, options)`: a thin wrapper over
`getLogsFromLine` with no line bounds and `timestamps` defaulted true. -/
def getLogsByDate (content : Option String) (o : GetLogsByDateOptions := {}) :
    GetLogsResult :=
  getLogsFromLine content
    { afterLine := none, beforeLine := none, startDate := o.startDate,
      endDate := o.endDate, timestamps := o.timestamps, categories := o.categories,
      applyFilter := o.applyFilter, runContext := o.runContext,
      includeContext := o.includeContext }

/-! ### Remaining specification-side definitions used by the theorems -/

/-- The counting/capping part of the `findErrors` loop body, run over the
already-filtered error records. -/
def feEmit (o : FindErrorsOptions) : FindErrorsState → List ErrorEntry → FindErrorsState
  | st, [] => st
  | st, e :: rest =>
    let st1 : FindErrorsState := { st with totalErrors := st.totalErrors + 1 }
    let st2 : FindErrorsState :=
      if st1.errors.length < o.maxErrors then { st1 with errors := st1.errors ++ [e] }
      else st1
    feEmit o st2 rest

/-- Total UTF-8 size of the output lines including one newline per line:
the value of `currentBytes` after emitting exactly the lines `L`. -/
def glBytes (L : List String) : Nat := (L.map (fun l => utf8Len l + 1)).sum

/-- "The ranges partition `[s, ∞)`": each range starts where announced,
every non-final range closes at least at its start minus one (so starts
are monotone) and at a genuine line (`endLine ≥ 0`, never the sentinel),
the next range starts right after it, and the final range is open
(`endLine = -1`). -/
def chainFrom (s : Int) : List StateRange → Prop
  | [] => True
  | [r] => (r.startLine : Int) = s ∧ r.endLine = -1
  | r :: r₂ :: rest =>
    (r.startLine : Int) = s ∧ s - 1 ≤ r.endLine ∧ 0 ≤ r.endLine ∧
    chainFrom (r.endLine + 1) (r₂ :: rest)

/-- The length of a range when the open sentinel is read as "up to line
`n`" (the file's true last line). -/
def closedLen (n : Int) (r : StateRange) : Int :=
  (if r.endLine = -1 then n else r.endLine) - (r.startLine : Int) + 1

/-- Does the range contain the line (same test as the source's
`r.startLine <= lineNum && (r.endLine === -1 || lineNum <= r.endLine)`)? -/
def lineInRange (lineNum : Nat) (r : StateRange) : Bool :=
  decide (r.startLine ≤ lineNum) &&
  (decide (r.endLine = -1) || decide ((lineNum : Int) ≤ r.endLine))

/-- The run-context a raw state label is mapped to, per the amended claim:
the *lowercased* label is searched for the marker substrings, so the
matching is case-insensitive in the label. -/
def classifyState (state : String) : Option String :=
  let s := jsToLower state
  if strContains s "server" || strContains s "client" then some "play"
  else if strContains s "edit" then some "edit"
  else none

/-- Specification-level description of `getRunContextForLine`: the first
containing range with a recognised (case-insensitively matched) marker
decides; otherwise `"unknown"`. -/
def ctxSpec (lineNum : Nat) (ranges : List StateRange) : String :=
  (((ranges.filter (lineInRange lineNum)).filterMap (fun r => classifyState r.state)).headD
    "unknown")

/-! ### Concrete logs used by counterexamples and witnesses -/

/-- A single parseable line whose message "Info: hello" matches the
exclusion rule `"Info:"` (prefix). -/
def exLogExcluded : String :=
  "2025-01-02T03:04:05.123Z,5.5,abc12,7 [FLog::Output] Info: hello"

/-- A single parseable error line (category `FLog::Error`) with message
"boom", inside the implicit initial `Edit` range. -/
def exLogError : String :=
  "2025-01-02T03:04:05.123Z,5.5,abc12,7,Error [FLog::Error] boom"

/-! ## Theorems -/

/-! ### Byte accounting -/

theorem utf8Len_append (a b : String) : utf8Len (a ++ b) = utf8Len a + utf8Len b := by
  simp [utf8Len, String.toList]

theorem utf8Len_joinLines : ∀ L : List String, L ≠ [] →
    utf8Len (joinLines L) + 1 = glBytes L
  | [l], _ => by simp [joinLines, glBytes]
  | l :: l₂ :: rest, _ => by
    have ih := utf8Len_joinLines (l₂ :: rest) (by simp)
    have h1 : utf8Len "\n" = 1 := by decide
    simp only [joinLines, glBytes, utf8Len_append, List.map_cons, List.sum_cons, h1] at *
    omega

theorem glBytes_append (a b : List String) : glBytes (a ++ b) = glBytes a + glBytes b := by
  simp [glBytes]

/-! ### Lemmas about the emission pass `glEmit` -/

theorem glEmit_remaining : ∀ (L : List (Nat × String)) (st : GetLogsState),
    (glEmit st L).remaining = st.remaining + L.length
  | [], st => by simp [glEmit]
  | (ln, out) :: rest, st => by
    simp only [glEmit]
    split
    · rw [glEmit_remaining rest]; simp; omega
    · split
      · rw [glEmit_remaining rest]; simp; omega
      · rw [glEmit_remaining rest]; simp; omega

theorem glEmit_logLines : ∀ (L : List (Nat × String)) (st : GetLogsState),
    ∃ t, (glEmit st L).logLines = st.logLines ++ t ∧
      ∀ x ∈ t, ∃ p ∈ L, x = p.2
  | [], st => ⟨[], by simp [glEmit]⟩
  | (ln, out) :: rest, st => by
    simp only [glEmit]
    split
    · obtain ⟨t, ht, hm⟩ := glEmit_logLines rest _
      exact ⟨t, by simpa using ht, fun x hx => by
        obtain ⟨p, hp, hx2⟩ := hm x hx
        exact ⟨p, by simp [hp], hx2⟩⟩
    · split
      · obtain ⟨t, ht, hm⟩ := glEmit_logLines rest _
        exact ⟨t, by simpa using ht, fun x hx => by
          obtain ⟨p, hp, hx2⟩ := hm x hx
          exact ⟨p, by simp [hp], hx2⟩⟩
      · obtain ⟨t, ht, hm⟩ := glEmit_logLines rest _
        refine ⟨out :: t, ?_, fun x hx => ?_⟩
        · rw [ht]; simp
        · rcases List.mem_cons.mp hx with h | h
          · exact ⟨(ln, out), by simp, h⟩
          · obtain ⟨p, hp, hx2⟩ := hm x h
            exact ⟨p, by simp [hp], hx2⟩

theorem glEmit_bytes : ∀ (L : List (Nat × String)) (st : GetLogsState),
    st.currentBytes = glBytes st.logLines →
    (glEmit st L).currentBytes = glBytes (glEmit st L).logLines
  | [], st, h => by simpa [glEmit] using h
  | (ln, out) :: rest, st, h => by
    simp only [glEmit]
    split
    · exact glEmit_bytes rest _ (by simpa using h)
    · split
      · exact glEmit_bytes rest _ (by simpa using h)
      · exact glEmit_bytes rest _ (by simp [glBytes_append, glBytes, h])

theorem glEmit_budget : ∀ (L : List (Nat × String)) (st : GetLogsState),
    (2 ≤ st.logLines.length → st.currentBytes ≤ MAX_BYTES) →
    (2 ≤ (glEmit st L).logLines.length → (glEmit st L).currentBytes ≤ MAX_BYTES)
  | [], st, h => by simpa [glEmit] using h
  | (ln, out) :: rest, st, h => by
    simp only [glEmit]
    split
    · exact glEmit_budget rest _ (by simpa using h)
    · split
      · exact glEmit_budget rest _ (by simpa using h)
      · refine glEmit_budget rest _ ?_
        intro hlen
        simp only [List.length_append, List.length_cons, List.length_nil] at hlen ⊢
        rename_i hcond hnot
        rcases Nat.eq_zero_or_pos st.logLines.length with h0 | hpos
        · omega
        · have : ¬(MAX_BYTES < st.currentBytes + (utf8Len out + 1) ∧
              0 < st.logLines.length) := by simpa using hnot
          omega

theorem glEmit_startLine_some : ∀ (L : List (Nat × String)) (st : GetLogsState) (v : Nat),
    st.startLine = some v → (glEmit st L).startLine = some v
  | [], st, v, h => by simpa [glEmit] using h
  | (ln, out) :: rest, st, v, h => by
    simp only [glEmit]
    split
    · exact glEmit_startLine_some rest _ v (by simpa using h)
    · split
      · exact glEmit_startLine_some rest _ v (by simpa using h)
      · exact glEmit_startLine_some rest _ v (by simp [h])

theorem glEmit_first (L : List (Nat × String)) (st : GetLogsState) (ln : Nat) (out : String)
    (hsl : st.startLine = none) (hll : st.logLines = []) (hbe : st.bytesExceeded = false) :
    (glEmit st ((ln, out) :: L)).startLine = some ln ∧
    ∃ t, (glEmit st ((ln, out) :: L)).logLines = out :: t := by
  simp only [glEmit]
  split
  · rename_i hcond
    simp [hbe] at hcond
  · split
    · rename_i hcond
      simp [hll] at hcond
    · constructor
      · exact glEmit_startLine_some L _ ln (by simp [hsl])
      · obtain ⟨t, ht, _⟩ := glEmit_logLines L _
        exact ⟨t, by rw [ht]; simp [hll]⟩

/-! ### The `getLogsFromLine` loop is filtering followed by emission -/

theorem getLogsLoop_eq_emit (opts : GetLogsOptions) (cats : List String)
    (stateRanges : List StateRange) :
    ∀ (lines : List String) (i : Nat) (st : GetLogsState),
      getLogsLoop opts cats stateRanges lines i st =
        glEmit st ((glMatches opts cats stateRanges lines i).map
          (fun p => (p.1, glFormat opts p.2)))
  | [], i, st => by simp [getLogsLoop, glMatches, glEmit]
  | rawLine :: rest, i, st => by
    simp only [getLogsLoop, glMatches]
    split
    · exact getLogsLoop_eq_emit opts cats stateRanges rest (i + 1) st
    · split
      · simp [glEmit]
      · cases h : glStep opts cats stateRanges (i + 1) rawLine with
        | none =>
          simpa [h] using getLogsLoop_eq_emit opts cats stateRanges rest (i + 1) st
        | some entry =>
          simp only [h, List.map_cons, glEmit]
          split
          · exact getLogsLoop_eq_emit opts cats stateRanges rest (i + 1) _
          · split
            · exact getLogsLoop_eq_emit opts cats stateRanges rest (i + 1) _
            · exact getLogsLoop_eq_emit opts cats stateRanges rest (i + 1) _

theorem getLogsFromLine_some (c : String) (opts : GetLogsOptions) :
    getLogsFromLine (some c) opts = mkGetLogsResult (glFinalOf c opts) := rfl

theorem glFinalOf_eq_emit (c : String) (opts : GetLogsOptions) :
    glFinalOf c opts =
      glEmit initGetLogsState ((glMatchedOf c opts).map (fun p => (p.1, glFormat opts p.2))) :=
  getLogsLoop_eq_emit opts (glCats opts) (glRanges c opts) (splitNl c) 0 initGetLogsState

/-! ### Properties of the filtered list `glMatches` -/

theorem glMatches_bounds (opts : GetLogsOptions) (cats : List String)
    (stateRanges : List StateRange) :
    ∀ (lines : List String) (i : Nat), ∀ p ∈ glMatches opts cats stateRanges lines i,
      i < p.1 ∧ ∀ a, opts.afterLine = some a → a < (p.1 : Int)
  | [], i => by simp [glMatches]
  | rawLine :: rest, i => by
    intro p hp
    simp only [glMatches] at hp
    split at hp
    · have := glMatches_bounds opts cats stateRanges rest (i + 1) p hp
      exact ⟨by omega, this.2⟩
    · split at hp
      · simp at hp
      · rename_i hskip hstop
        cases h : glStep opts cats stateRanges (i + 1) rawLine with
        | none =>
          rw [h] at hp
          have := glMatches_bounds opts cats stateRanges rest (i + 1) p hp
          exact ⟨by omega, this.2⟩
        | some entry =>
          rw [h] at hp
          rcases List.mem_cons.mp hp with h1 | h1
          · subst h1
            refine ⟨by omega, fun a ha => ?_⟩
            simp [afterSkip, ha] at hskip
            omega
          · have := glMatches_bounds opts cats stateRanges rest (i + 1) p h1
            exact ⟨by omega, this.2⟩

theorem glMatches_mem_step (opts : GetLogsOptions) (cats : List String)
    (stateRanges : List StateRange) :
    ∀ (lines : List String) (i : Nat), ∀ p ∈ glMatches opts cats stateRanges lines i,
      ∃ raw, glStep opts cats stateRanges p.1 raw = some p.2
  | [], i => by simp [glMatches]
  | rawLine :: rest, i => by
    intro p hp
    simp only [glMatches] at hp
    split at hp
    · exact glMatches_mem_step opts cats stateRanges rest (i + 1) p hp
    · split at hp
      · simp at hp
      · cases h : glStep opts cats stateRanges (i + 1) rawLine with
        | none =>
          rw [h] at hp
          exact glMatches_mem_step opts cats stateRanges rest (i + 1) p hp
        | some entry =>
          rw [h] at hp
          rcases List.mem_cons.mp hp with h1 | h1
          · subst h1; exact ⟨rawLine, h⟩
          · exact glMatches_mem_step opts cats stateRanges rest (i + 1) p h1

/-- A line surviving the filter chain with the exclusion filter enabled is
not excluded. -/
theorem glStep_not_excluded (opts : GetLogsOptions) (cats : List String)
    (stateRanges : List StateRange) (lineNum : Nat) (rawLine : String) (e : LogEntry)
    (hf : opts.applyFilter = true)
    (h : glStep opts cats stateRanges lineNum rawLine = some e) :
    shouldExclude e.message = false := by
  dsimp only [glStep] at h
  split at h
  · exact absurd h (by simp)
  · split at h
    · exact absurd h (by simp)
    · rename_i entry heq
      split at h
      · exact absurd h (by simp)
      · split at h
        · exact absurd h (by simp)
        · rename_i hcat hexc
          split at h
          · exact absurd h (by simp)
          · rw [hf] at hexc
            simp only [Bool.true_and] at hexc
            split at h
            · split at h
              · exact absurd h (by simp)
              · have he : e.message = entry.message := by cases h; rfl
                rw [he]
                simpa using hexc
            · have he : e.message = entry.message := by cases h; rfl
              rw [he]
              simpa using hexc

/-- Auxiliary facts about the final state of a `getLogsFromLine` call. -/
theorem glFinalOf_facts (c : String) (opts : GetLogsOptions) :
    (glFinalOf c opts).remaining = (glMatchedOf c opts).length ∧
    (glFinalOf c opts).currentBytes = glBytes (glFinalOf c opts).logLines ∧
    (2 ≤ (glFinalOf c opts).logLines.length →
      (glFinalOf c opts).currentBytes ≤ MAX_BYTES) := by
  rw [glFinalOf_eq_emit]
  refine ⟨?_, ?_, ?_⟩
  · rw [glEmit_remaining]; simp [initGetLogsState]
  · exact glEmit_bytes _ _ (by simp [initGetLogsState, glBytes])
  · exact glEmit_budget _ _ (by simp [initGetLogsState])

/-- **C1.** For every call of the bounded incremental read
`getLogsFromLine` on an existing file: the emitted text never exceeds the
32,000-byte budget unless it consists of the single first matching line,
which is then emitted in full (it equals that line's complete formatted
output); and `remaining + (number of emitted lines)` equals the total
number of lines that passed all filters, with `hasMore` true exactly when
`remaining > 0`. -/
theorem getLogsFromLine_budget_and_accounting (c : String) (opts : GetLogsOptions) :
    (utf8Len (getLogsFromLine (some c) opts).logs ≤ MAX_BYTES ∨
      ∃ p, (glMatchedOf c opts).head? = some p ∧
        glEmittedOf c opts = [glFormat opts p.2] ∧
        (getLogsFromLine (some c) opts).logs = glFormat opts p.2) ∧
    (getLogsFromLine (some c) opts).remaining + (glEmittedOf c opts).length =
      ((glMatchedOf c opts).length : Int) ∧
    ((getLogsFromLine (some c) opts).hasMore = true ↔
      0 < (getLogsFromLine (some c) opts).remaining) := by
  obtain ⟨hrem, hbytes, hbud⟩ := glFinalOf_facts c opts
  rw [getLogsFromLine_some]
  have hlogs : (mkGetLogsResult (glFinalOf c opts)).logs =
      joinLines (glFinalOf c opts).logLines := rfl
  have hEdef : glEmittedOf c opts = (glFinalOf c opts).logLines := rfl
  refine ⟨?_, ?_, ?_⟩
  · by_cases hle : utf8Len (joinLines (glFinalOf c opts).logLines) ≤ MAX_BYTES
    · left; rw [hlogs]; exact hle
    · right
      have hne : (glFinalOf c opts).logLines ≠ [] := by
        intro h0
        rw [h0] at hle
        simp [joinLines, utf8Len] at hle
      have hlen1 : (glFinalOf c opts).logLines.length = 1 := by
        rcases Nat.lt_or_ge (glFinalOf c opts).logLines.length 2 with h2 | h2
        · have := List.length_pos.mpr hne
          omega
        · exfalso
          have hcb := hbud h2
          have := utf8Len_joinLines (glFinalOf c opts).logLines hne
          omega
      have hMne : glMatchedOf c opts ≠ [] := by
        intro h0
        rw [glFinalOf_eq_emit, h0] at hne
        simp [glEmit, initGetLogsState] at hne
      obtain ⟨p, M', hM⟩ := List.exists_cons_of_ne_nil hMne
      have hfirst := glEmit_first ((M').map (fun q => (q.1, glFormat opts q.2)))
        initGetLogsState p.1 (glFormat opts p.2) rfl rfl rfl
      rw [glFinalOf_eq_emit, hM] at hlen1 hne ⊢
      simp only [List.map_cons] at hfirst hlen1 ⊢
      obtain ⟨t, ht⟩ := hfirst.2
      rw [ht] at hlen1
      simp only [List.length_cons] at hlen1
      have ht0 : t = [] := by
        cases t
        · rfl
        · simp at hlen1
      refine ⟨p, by simp [hM], ?_, ?_⟩
      · rw [hEdef, glFinalOf_eq_emit, hM]
        simp only [List.map_cons]
        rw [ht, ht0]
      · have hlogs2 : ∀ X : GetLogsState, (mkGetLogsResult X).logs = joinLines X.logLines :=
          fun _ => rfl
        rw [hlogs2, ht, ht0]
        simp [joinLines]
  · have : (mkGetLogsResult (glFinalOf c opts)).remaining =
        ((glFinalOf c opts).remaining : Int) - (glFinalOf c opts).logLines.length := rfl
    rw [this, hEdef, hrem]
    omega
  · have h1 : (mkGetLogsResult (glFinalOf c opts)).hasMore =
        decide ((glFinalOf c opts).logLines.length < (glFinalOf c opts).remaining) := rfl
    have h2 : (mkGetLogsResult (glFinalOf c opts)).remaining =
        ((glFinalOf c opts).remaining : Int) - (glFinalOf c opts).logLines.length := rfl
    rw [h1, h2]
    constructor
    · intro h
      have := of_decide_eq_true h
      omega
    · intro h
      apply decide_eq_true
      omega

/-- **C4.** On an unmodified existing file, re-reading with
`afterLine = R.lastLine` yields either the empty result or a result whose
`startLine` is strictly greater than `R.lastLine`; moreover *every* line
that passes the second call's filters (hence every line it emits) has a
line number strictly greater than `R.lastLine`, so no line is emitted by
both calls. -/
theorem getLogsFromLine_monotone_cursor (c : String) (opts opts2 : GetLogsOptions) :
    (getLogsFromLine (some c)
        { opts2 with afterLine := some ((getLogsFromLine (some c) opts).lastLine : Int) } =
        emptyGetLogsResult ∨
      (getLogsFromLine (some c) opts).lastLine <
        (getLogsFromLine (some c)
          { opts2 with afterLine := some ((getLogsFromLine (some c) opts).lastLine : Int) }).startLine) ∧
    ∀ p ∈ glMatchedOf c
        { opts2 with afterLine := some ((getLogsFromLine (some c) opts).lastLine : Int) },
      ((getLogsFromLine (some c) opts).lastLine : Int) < p.1 := by
  set L := (getLogsFromLine (some c) opts).lastLine with hL
  set o2 : GetLogsOptions := { opts2 with afterLine := some (L : Int) } with ho2
  have hbound : ∀ p ∈ glMatchedOf c o2, ((L : Nat) : Int) < p.1 := by
    intro p hp
    exact (glMatches_bounds o2 (glCats o2) (glRanges c o2) (splitNl c) 0 p hp).2 (L : Int)
      (by rw [ho2])
  refine ⟨?_, hbound⟩
  cases hM : glMatchedOf c o2 with
  | nil =>
    left
    rw [getLogsFromLine_some, glFinalOf_eq_emit, hM]
    rfl
  | cons p M' =>
    right
    have hfirst := glEmit_first ((M').map (fun q => (q.1, glFormat o2 q.2)))
      initGetLogsState p.1 (glFormat o2 p.2) rfl rfl rfl
    have hsl : (getLogsFromLine (some c) o2).startLine = p.1 := by
      rw [getLogsFromLine_some, glFinalOf_eq_emit, hM]
      simp only [List.map_cons]
      have : (mkGetLogsResult (glEmit initGetLogsState
          ((p.1, glFormat o2 p.2) :: (M').map (fun q => (q.1, glFormat o2 q.2))))).startLine =
          (glEmit initGetLogsState
            ((p.1, glFormat o2 p.2) :: (M').map (fun q => (q.1, glFormat o2 q.2)))).startLine.getD 0 :=
        rfl
      rw [this, hfirst.1]
      rfl
    rw [hsl]
    have := hbound p (by rw [hM]; exact List.mem_cons_self p M')
    exact_mod_cast this

/-! ### The `searchLogsFromLine` loop is filtering followed by emission -/

theorem searchLoop_eq_emit (test : String → Bool) (opts : GetLogsOptions)
    (cats : List String) (stateRanges : List StateRange) :
    ∀ (lines : List String) (i : Nat) (st : SearchState),
      searchLoop test opts cats stateRanges lines i st =
        srEmit st ((srMatches test opts cats stateRanges lines i).map
          (fun p => (p.1, srFormat opts p.1 p.2)))
  | [], i, st => by simp [searchLoop, srMatches, srEmit]
  | rawLine :: rest, i, st => by
    simp only [searchLoop, srMatches]
    split
    · exact searchLoop_eq_emit test opts cats stateRanges rest (i + 1) st
    · split
      · simp [srEmit]
      · cases h : srStep test opts cats stateRanges (i + 1) rawLine with
        | none =>
          simpa [h] using searchLoop_eq_emit test opts cats stateRanges rest (i + 1) st
        | some entry =>
          simp only [h, List.map_cons, srEmit]
          split
          · exact searchLoop_eq_emit test opts cats stateRanges rest (i + 1) _
          · split
            · exact searchLoop_eq_emit test opts cats stateRanges rest (i + 1) _
            · exact searchLoop_eq_emit test opts cats stateRanges rest (i + 1) _

theorem srEmit_matchCount : ∀ (L : List (Nat × String)) (st : SearchState),
    (srEmit st L).matchCount = st.matchCount + L.length
  | [], st => by simp [srEmit]
  | (ln, out) :: rest, st => by
    simp only [srEmit]
    split
    · rw [srEmit_matchCount rest]; simp; omega
    · split
      · rw [srEmit_matchCount rest]; simp; omega
      · rw [srEmit_matchCount rest]; simp; omega

theorem srEmit_logLines : ∀ (L : List (Nat × String)) (st : SearchState),
    ∃ t, (srEmit st L).logLines = st.logLines ++ t ∧
      ∀ x ∈ t, ∃ p ∈ L, x = p.2
  | [], st => ⟨[], by simp [srEmit]⟩
  | (ln, out) :: rest, st => by
    simp only [srEmit]
    split
    · obtain ⟨t, ht, hm⟩ := srEmit_logLines rest _
      exact ⟨t, by simpa using ht, fun x hx => by
        obtain ⟨p, hp, hx2⟩ := hm x hx
        exact ⟨p, by simp [hp], hx2⟩⟩
    · split
      · obtain ⟨t, ht, hm⟩ := srEmit_logLines rest _
        exact ⟨t, by simpa using ht, fun x hx => by
          obtain ⟨p, hp, hx2⟩ := hm x hx
          exact ⟨p, by simp [hp], hx2⟩⟩
      · obtain ⟨t, ht, hm⟩ := srEmit_logLines rest _
        refine ⟨out :: t, ?_, fun x hx => ?_⟩
        · rw [ht]; simp
        · rcases List.mem_cons.mp hx with h | h
          · exact ⟨(ln, out), by simp, h⟩
          · obtain ⟨p, hp, hx2⟩ := hm x h
            exact ⟨p, by simp [hp], hx2⟩

theorem srMatches_mem_step (test : String → Bool) (opts : GetLogsOptions)
    (cats : List String) (stateRanges : List StateRange) :
    ∀ (lines : List String) (i : Nat), ∀ p ∈ srMatches test opts cats stateRanges lines i,
      ∃ raw, srStep test opts cats stateRanges p.1 raw = some p.2
  | [], i => by simp [srMatches]
  | rawLine :: rest, i => by
    intro p hp
    simp only [srMatches] at hp
    split at hp
    · exact srMatches_mem_step test opts cats stateRanges rest (i + 1) p hp
    · split at hp
      · simp at hp
      · cases h : srStep test opts cats stateRanges (i + 1) rawLine with
        | none =>
          rw [h] at hp
          exact srMatches_mem_step test opts cats stateRanges rest (i + 1) p hp
        | some entry =>
          rw [h] at hp
          rcases List.mem_cons.mp hp with h1 | h1
          · subst h1; exact ⟨rawLine, h⟩
          · exact srMatches_mem_step test opts cats stateRanges rest (i + 1) p h1

theorem searchLogsFromLine_some (compile : String → Option (String → Bool))
    (pattern : String) (test : String → Bool) (c : String) (opts : GetLogsOptions)
    (h : compile pattern = some test) :
    searchLogsFromLine compile (some c) pattern opts = mkSearchResult (srFinalOf test c opts) := by
  unfold searchLogsFromLine
  rw [h]
  rfl

theorem srFinalOf_eq_emit (test : String → Bool) (c : String) (opts : GetLogsOptions) :
    srFinalOf test c opts =
      srEmit initSearchState
        ((srMatchedOf test c opts).map (fun p => (p.1, srFormat opts p.1 p.2))) :=
  searchLoop_eq_emit test opts (glCats opts) (glRanges c opts) (splitNl c) 0 initSearchState

/-- **C10.** In a successful `searchLogsFromLine` result, the `matchCount`
field equals the number of output lines actually emitted into the logs
text (`srEmittedOf`), and the `remaining` field is the true total of
matching lines in range (`srMatchedOf`) minus that emitted count — so
`matchCount + remaining` recovers the true total, and `matchCount` is
smaller than the number of pattern matches exactly when `remaining > 0`. -/
theorem searchLogsFromLine_matchCount (compile : String → Option (String → Bool))
    (pattern : String) (test : String → Bool) (c : String) (opts : GetLogsOptions)
    (h : compile pattern = some test) :
    searchLogsFromLine compile (some c) pattern opts =
      SearchResult.ok (joinLines (srEmittedOf test c opts))
        ((srFinalOf test c opts).startLine.getD 0) (srFinalOf test c opts).lastLine
        (srEmittedOf test c opts).length
        (((srMatchedOf test c opts).length : Int) - (srEmittedOf test c opts).length)
        (decide ((srEmittedOf test c opts).length < (srMatchedOf test c opts).length)) ∧
    ((srEmittedOf test c opts).length : Int) +
        (((srMatchedOf test c opts).length : Int) - (srEmittedOf test c opts).length) =
      ((srMatchedOf test c opts).length : Int) := by
  have hmc : (srFinalOf test c opts).matchCount = (srMatchedOf test c opts).length := by
    rw [srFinalOf_eq_emit, srEmit_matchCount]
    simp [initSearchState]
  refine ⟨?_, by omega⟩
  rw [searchLogsFromLine_some compile pattern test c opts h]
  unfold mkSearchResult
  rw [hmc]
  rfl

/-- Closed instance of `searchLogsFromLine_matchCount`. -/
theorem searchLogsFromLine_matchCount_witness :
    (searchLogsFromLine (fun _ => some (fun m => strContains m "a")) (some exLogError)
        "a" {} =
      SearchResult.ok
        (joinLines (srEmittedOf (fun m => strContains m "a") exLogError {}))
        ((srFinalOf (fun m => strContains m "a") exLogError {}).startLine.getD 0)
        (srFinalOf (fun m => strContains m "a") exLogError {}).lastLine
        (srEmittedOf (fun m => strContains m "a") exLogError {}).length
        (((srMatchedOf (fun m => strContains m "a") exLogError {}).length : Int) -
          (srEmittedOf (fun m => strContains m "a") exLogError {}).length)
        (decide ((srEmittedOf (fun m => strContains m "a") exLogError {}).length <
          (srMatchedOf (fun m => strContains m "a") exLogError {}).length))) ∧
    ((srEmittedOf (fun m => strContains m "a") exLogError {}).length : Int) +
        (((srMatchedOf (fun m => strContains m "a") exLogError {}).length : Int) -
          (srEmittedOf (fun m => strContains m "a") exLogError {}).length) =
      ((srMatchedOf (fun m => strContains m "a") exLogError {}).length : Int) :=
  searchLogsFromLine_matchCount (fun _ => some (fun m => strContains m "a")) "a"
    (fun m => strContains m "a") exLogError {} rfl

/-- **C7.** An invalid pattern on an existing file yields the result-level
error value, which is distinguishable from (indeed different from) every
success result, in particular from the empty success shape; the model is a
total function, so no exception is thrown. -/
theorem searchLogsFromLine_invalid_pattern (compile : String → Option (String → Bool))
    (pattern : String) (c : String) (opts : GetLogsOptions)
    (h : compile pattern = none) :
    searchLogsFromLine compile (some c) pattern opts =
      SearchResult.err ("Invalid regex pattern: " ++ pattern) ∧
    ∀ logs sl ll mc rem hm,
      SearchResult.err ("Invalid regex pattern: " ++ pattern) ≠
        SearchResult.ok logs sl ll mc rem hm := by
  constructor
  · unfold searchLogsFromLine
    rw [h]
  · intro logs sl ll mc rem hm hcontra
    cases hcontra

/-- Closed instance of `searchLogsFromLine_invalid_pattern`. -/
theorem searchLogsFromLine_invalid_pattern_witness :
    (searchLogsFromLine (fun _ => none) (some exLogError) "(" {} =
      SearchResult.err ("Invalid regex pattern: " ++ "(")) ∧
    ∀ logs sl ll mc rem hm,
      SearchResult.err ("Invalid regex pattern: " ++ "(") ≠
        SearchResult.ok logs sl ll mc rem hm :=
  searchLogsFromLine_invalid_pattern (fun _ => none) "(" exLogError {} rfl

/-- **C6 (amended).** With the exclusion filter enabled
(`applyFilter = true`, its default), every output line emitted by
`getLogsFromLine` or by `searchLogsFromLine` is the formatted output of a
line that passed all filters, whose message does *not* satisfy
`shouldExclude` — so no excluded message ever reaches the output text,
whatever the other filters are. -/
theorem exclusion_invariant (c : String) (opts : GetLogsOptions) (test : String → Bool)
    (hf : opts.applyFilter = true) :
    (∀ out ∈ glEmittedOf c opts, ∃ p ∈ glMatchedOf c opts,
      out = glFormat opts p.2 ∧ shouldExclude p.2.message = false) ∧
    (∀ out ∈ srEmittedOf test c opts, ∃ p ∈ srMatchedOf test c opts,
      out = srFormat opts p.1 p.2 ∧ shouldExclude p.2.message = false) := by
  constructor
  · intro out hout
    have hE : glEmittedOf c opts = (glFinalOf c opts).logLines := rfl
    rw [hE, glFinalOf_eq_emit] at hout
    obtain ⟨t, ht, hm⟩ := glEmit_logLines
      ((glMatchedOf c opts).map (fun p => (p.1, glFormat opts p.2))) initGetLogsState
    rw [ht] at hout
    simp only [initGetLogsState, List.nil_append] at hout
    obtain ⟨q, hq, hout2⟩ := hm out hout
    obtain ⟨p, hp, hpq⟩ := List.mem_map.mp hq
    refine ⟨p, hp, ?_, ?_⟩
    · rw [hout2, ← hpq]
    · obtain ⟨raw, hraw⟩ := glMatches_mem_step opts (glCats opts) (glRanges c opts)
        (splitNl c) 0 p hp
      exact glStep_not_excluded opts (glCats opts) (glRanges c opts) p.1 raw p.2 hf hraw
  · intro out hout
    have hE : srEmittedOf test c opts = (srFinalOf test c opts).logLines := rfl
    rw [hE, srFinalOf_eq_emit] at hout
    obtain ⟨t, ht, hm⟩ := srEmit_logLines
      ((srMatchedOf test c opts).map (fun p => (p.1, srFormat opts p.1 p.2))) initSearchState
    rw [ht] at hout
    simp only [initSearchState, List.nil_append] at hout
    obtain ⟨q, hq, hout2⟩ := hm out hout
    obtain ⟨p, hp, hpq⟩ := List.mem_map.mp hq
    refine ⟨p, hp, ?_, ?_⟩
    · rw [hout2, ← hpq]
    · obtain ⟨raw, hraw⟩ := srMatches_mem_step test opts (glCats opts) (glRanges c opts)
        (splitNl c) 0 p hp
      have hglStep : glStep opts (glCats opts) (glRanges c opts) p.1 raw = some p.2 := by
        unfold srStep at hraw
        cases hg : glStep opts (glCats opts) (glRanges c opts) p.1 raw with
        | none => rw [hg] at hraw; exact absurd hraw (by simp)
        | some e =>
          rw [hg] at hraw
          dsimp only at hraw
          by_cases htst : test e.message = true
          · rw [if_pos htst] at hraw
            exact hraw
          · rw [if_neg htst] at hraw
            exact absurd hraw (by simp)
      exact glStep_not_excluded opts (glCats opts) (glRanges c opts) p.1 raw p.2 hf hglStep

/-- Closed instance of `exclusion_invariant` at a concrete log and the
default options (`applyFilter = true`). -/
theorem exclusion_invariant_witness :
    (∀ out ∈ glEmittedOf exLogExcluded {}, ∃ p ∈ glMatchedOf exLogExcluded {},
      out = glFormat {} p.2 ∧ shouldExclude p.2.message = false) ∧
    (∀ out ∈ srEmittedOf (fun _ => true) exLogExcluded {},
      ∃ p ∈ srMatchedOf (fun _ => true) exLogExcluded {},
        out = srFormat {} p.1 p.2 ∧ shouldExclude p.2.message = false) :=
  exclusion_invariant exLogExcluded {} (fun _ => true) rfl

/-- **C6, counterexample to the claim as stated.**  A `getLogsFromLine`
call with the exclusion filter disabled (`applyFilter = false` is a legal
option of the operation) emits the message `"Info: hello"` verbatim even
though `shouldExclude` holds for it, contradicting "for *every*
bounded-read call ... never appears in the output". -/
theorem exclusion_invariant_counterexample :
    shouldExclude "Info: hello" = true ∧
    (getLogsFromLine (some exLogExcluded) { applyFilter := false }).logs = "Info: hello" := by
  constructor
  · rfl
  · rfl

/-- **C2.** For each of the four query operations, a missing file
(`content = none`, i.e. `existsSync` false) yields the empty "no results"
shape; the operations are total functions, so no exception is thrown. -/
theorem missing_file_empty_results (o1 : GetLogsOptions)
    (compile : String → Option (String → Bool)) (pattern : String) (o2 : GetLogsOptions)
    (o3 : FindErrorsOptions) (o4 : GetLogsByDateOptions) :
    getLogsFromLine none o1 = emptyGetLogsResult ∧
    searchLogsFromLine compile none pattern o2 = emptySearchResult ∧
    findErrors none o3 = emptyFindErrorsResult ∧
    getLogsByDate none o4 = emptyGetLogsResult :=
  ⟨rfl, rfl, rfl, rfl⟩

/-! ### The `findErrors` loop is filtering followed by counting/capping -/

theorem findErrorsLoop_eq_emit (o : FindErrorsOptions) (stateRanges : List StateRange) :
    ∀ (lines : List String) (i : Nat) (st : FindErrorsState),
      findErrorsLoop o stateRanges lines i st =
        feEmit o st (feMatches o stateRanges lines i)
  | [], i, st => by simp [findErrorsLoop, feMatches, feEmit]
  | rawLine :: rest, i, st => by
    simp only [findErrorsLoop, feMatches]
    split
    · exact findErrorsLoop_eq_emit o stateRanges rest (i + 1) st
    · split
      · simp [feEmit]
      · cases h : feStep o stateRanges (i + 1) rawLine with
        | none =>
          simpa [h] using findErrorsLoop_eq_emit o stateRanges rest (i + 1) st
        | some e =>
          simp only [h, feEmit]
          exact findErrorsLoop_eq_emit o stateRanges rest (i + 1) _

theorem feEmit_total (o : FindErrorsOptions) : ∀ (L : List ErrorEntry) (st : FindErrorsState),
    (feEmit o st L).totalErrors = st.totalErrors + L.length
  | [], st => by simp [feEmit]
  | e :: rest, st => by
    simp only [feEmit]
    split
    · rw [feEmit_total o rest]; simp; omega
    · rw [feEmit_total o rest]; simp; omega

theorem feEmit_cap (o : FindErrorsOptions) : ∀ (L : List ErrorEntry) (st : FindErrorsState),
    st.errors.length = min st.totalErrors o.maxErrors →
    (feEmit o st L).errors.length = min (feEmit o st L).totalErrors o.maxErrors
  | [], st, h => by simpa [feEmit] using h
  | e :: rest, st, h => by
    simp only [feEmit]
    split
    · rename_i hlt
      refine feEmit_cap o rest _ ?_
      simp only [List.length_append, List.length_cons, List.length_nil]
      omega
    · rename_i hge
      refine feEmit_cap o rest _ ?_
      simp only
      omega

theorem feEmit_mem (o : FindErrorsOptions) : ∀ (L : List ErrorEntry) (st : FindErrorsState),
    ∀ x ∈ (feEmit o st L).errors, x ∈ st.errors ∨ x ∈ L
  | [], st => by simp [feEmit]
  | e :: rest, st => by
    intro x hx
    simp only [feEmit] at hx
    split at hx
    · rcases feEmit_mem o rest _ x hx with h | h
      · simp only [List.mem_append, List.mem_singleton] at h
        rcases h with h | h
        · exact Or.inl h
        · exact Or.inr (by simp [h])
      · exact Or.inr (by simp [h])
    · rcases feEmit_mem o rest _ x hx with h | h
      · exact Or.inl h
      · exact Or.inr (by simp [h])

theorem feMatches_mem_step (o : FindErrorsOptions) (stateRanges : List StateRange) :
    ∀ (lines : List String) (i : Nat), ∀ e ∈ feMatches o stateRanges lines i,
      ∃ j raw, lines[j]? = some raw ∧ feStep o stateRanges (i + j + 1) raw = some e
  | [], i => by simp [feMatches]
  | rawLine :: rest, i => by
    intro e he
    simp only [feMatches] at he
    split at he
    · obtain ⟨j, raw, hj, hstep⟩ := feMatches_mem_step o stateRanges rest (i + 1) e he
      refine ⟨j + 1, raw, by simpa using hj, ?_⟩
      rw [show i + (j + 1) + 1 = (i + 1) + j + 1 by omega]
      exact hstep
    · split at he
      · simp at he
      · cases h : feStep o stateRanges (i + 1) rawLine with
        | none =>
          rw [h] at he
          obtain ⟨j, raw, hj, hstep⟩ := feMatches_mem_step o stateRanges rest (i + 1) e he
          refine ⟨j + 1, raw, by simpa using hj, ?_⟩
          rw [show i + (j + 1) + 1 = (i + 1) + j + 1 by omega]
          exact hstep
        | some e2 =>
          rw [h] at he
          rcases List.mem_cons.mp he with h1 | h1
          · subst h1
            exact ⟨0, rawLine, by simp, h⟩
          · obtain ⟨j, raw, hj, hstep⟩ := feMatches_mem_step o stateRanges rest (i + 1) e h1
            refine ⟨j + 1, raw, by simpa using hj, ?_⟩
            rw [show i + (j + 1) + 1 = (i + 1) + j + 1 by omega]
            exact hstep

theorem findErrors_some (c : String) (o : FindErrorsOptions) :
    findErrors (some c) o =
      { hasError := decide (0 < (findErrorsLoop o (feRanges c o) (splitNl c) 0
          initFindErrorsState).totalErrors)
        errorCount := (findErrorsLoop o (feRanges c o) (splitNl c) 0
          initFindErrorsState).totalErrors
        errors := (findErrorsLoop o (feRanges c o) (splitNl c) 0
          initFindErrorsState).errors } := rfl

/-- **C3.** For every `findErrors` call on an existing file:
`errors.length = min(errorCount, maxErrors)`; `hasError` holds exactly
when `errorCount > 0`; and `errorCount` is the true total number of
matching error records in the requested range (the length of the filtered
list `feMatchedOf`). -/
theorem findErrors_cap (c : String) (o : FindErrorsOptions) :
    (findErrors (some c) o).errors.length =
      min (findErrors (some c) o).errorCount o.maxErrors ∧
    ((findErrors (some c) o).hasError = true ↔ 0 < (findErrors (some c) o).errorCount) ∧
    (findErrors (some c) o).errorCount = (feMatchedOf c o).length := by
  have hloop := findErrorsLoop_eq_emit o (feRanges c o) (splitNl c) 0 initFindErrorsState
  have htot : (findErrorsLoop o (feRanges c o) (splitNl c) 0 initFindErrorsState).totalErrors =
      (feMatchedOf c o).length := by
    rw [hloop, feEmit_total]
    simp [initFindErrorsState, feMatchedOf]
  have hcap := feEmit_cap o (feMatches o (feRanges c o) (splitNl c) 0) initFindErrorsState
    (by simp [initFindErrorsState])
  rw [findErrors_some]
  refine ⟨?_, by simp, htot⟩
  simp only
  rw [hloop]
  exact hcap

/-- Inversion of the `findErrors` per-line filter: the record carries the
parsed entry's fields, and its `context` is the index-resolved context
when an index was built and the literal `"unknown"` otherwise. -/
theorem feStep_some (o : FindErrorsOptions) (stateRanges : List StateRange) (lineNum : Nat)
    (rawLine : String) (e : ErrorEntry)
    (h : feStep o stateRanges lineNum rawLine = some e) :
    e.line = lineNum ∧
    (∃ entry, parseLogLine (jsTrim rawLine) lineNum = some entry ∧
      e.timestamp = entry.timestamp ∧ e.message = entry.message ∧
      e.category = entry.category ∧ e.level = entry.level ∧ isErrorLog entry = true) ∧
    e.context = (if 0 < stateRanges.length then getRunContextForLine lineNum stateRanges
      else "unknown") ∧
    (truthyS o.runContext = true → 0 < stateRanges.length →
      o.runContext = some e.context) := by
  dsimp only [feStep] at h
  split at h
  · exact absurd h (by simp)
  · split at h
    · exact absurd h (by simp)
    · rename_i entry heq
      split at h
      · exact absurd h (by simp)
      · rename_i herr
        split at h
        · exact absurd h (by simp)
        · split at h
          · exact absurd h (by simp)
          · split at h
            · rename_i hlen
              split at h
              · exact absurd h (by simp)
              · rename_i hrc
                cases h
                refine ⟨rfl, ⟨entry, heq, rfl, rfl, rfl, rfl, by simpa using herr⟩, ?_, ?_⟩
                · rw [if_pos hlen]
                · intro htr _
                  simp only [htr, Bool.true_and, Bool.not_eq_true'] at hrc
                  push_neg at hrc
                  simpa using hrc
            · rename_i hlen
              cases h
              refine ⟨rfl, ⟨entry, heq, rfl, rfl, rfl, rfl, by simpa using herr⟩, ?_, ?_⟩
              · rw [if_neg hlen]
              · intro _ hpos
                exact absurd hpos hlen

theorem buildGameStateLoop_ne_nil :
    ∀ (lines : List String) (i : Nat) (stName : String) (csl : Nat) (cst : String)
      (acc : List StateRange), 1 ≤ csl →
      buildGameStateLoop lines i stName csl cst acc ≠ []
  | [], i, stName, csl, cst, acc, h => by
    simp only [buildGameStateLoop]
    rw [if_pos (by omega)]
    simp
  | line :: rest, i, stName, csl, cst, acc, h => by
    simp only [buildGameStateLoop]
    split
    · exact buildGameStateLoop_ne_nil rest (i + 1) stName csl cst acc h
    · split
      · exact buildGameStateLoop_ne_nil rest (i + 1) stName csl cst acc h
      · exact buildGameStateLoop_ne_nil rest (i + 1) _ (i + 1) _ _ (by omega)

theorem buildGameStateIndex_ne_nil (c : String) : buildGameStateIndex (some c) ≠ [] :=
  buildGameStateLoop_ne_nil (splitNl c) 0 "Edit" 1 "" [] (by omega)

/-- **C9 (amended).** Every entry returned by `findErrors` on an existing
file carries the line number, timestamp, message, category and level of
the record parsed from the queried file's line at its line number (the
raw line at index `e.line - 1` of the split content); its `context` field
is the index-resolved run-context of that line *when a `runContext` hard
filter was requested* (and then also equals the requested context), but is
the literal `"unknown"` when no filter was requested — the index is only
built (and the context only resolved) under a requested `runContext`. -/
theorem findErrors_entries_context (c : String) (o : FindErrorsOptions) :
    ∀ e ∈ (findErrors (some c) o).errors,
      (∃ raw entry, (splitNl c)[e.line - 1]? = some raw ∧
        parseLogLine (jsTrim raw) e.line = some entry ∧
        e.timestamp = entry.timestamp ∧ e.message = entry.message ∧
        e.category = entry.category ∧ e.level = entry.level) ∧
      (truthyS o.runContext = false → e.context = "unknown") ∧
      (truthyS o.runContext = true →
        e.context = getRunContextForLine e.line (buildGameStateIndex (some c)) ∧
        o.runContext = some e.context) := by
  intro e he
  have hloop := findErrorsLoop_eq_emit o (feRanges c o) (splitNl c) 0 initFindErrorsState
  rw [findErrors_some] at he
  simp only at he
  rw [hloop] at he
  have hmem := feEmit_mem o (feMatches o (feRanges c o) (splitNl c) 0)
    initFindErrorsState e he
  rcases hmem with hmem | hmem
  · simp [initFindErrorsState] at hmem
  · obtain ⟨j, raw, hj, hstep⟩ := feMatches_mem_step o (feRanges c o) (splitNl c) 0 e hmem
    obtain ⟨hline, ⟨entry, hparse, hts, hmsg, hcat, hlvl, _⟩, hctx, hrc⟩ :=
      feStep_some o (feRanges c o) (0 + j + 1) raw e hstep
    refine ⟨⟨raw, entry, ?_, ?_, hts, hmsg, hcat, hlvl⟩, ?_, ?_⟩
    · rw [show e.line - 1 = j by omega]
      exact hj
    · rw [hline]
      exact hparse
    · intro htr
      rw [hctx]
      have hfe : feRanges c o = [] := by
        unfold feRanges
        rw [if_neg (by simp [htr])]
      rw [hfe]
      simp
    · intro htr
      have hfe : feRanges c o = buildGameStateIndex (some c) := by
        unfold feRanges
        rw [if_pos (by simp [htr])]
      have hpos : 0 < (feRanges c o).length := by
        rw [hfe]
        exact List.length_pos.mpr (buildGameStateIndex_ne_nil c)
      constructor
      · rw [hctx, if_pos hpos, hfe, hline]
      · exact hrc htr hpos

/-- The single error record of `exLogError` as `findErrors` returns it
with no `runContext` filter. -/
def exErrorEntry : ErrorEntry :=
  { line := 1, timestamp := "2025-01-02T03:04:05.123Z", message := "boom",
    category := "FLog::Error", level := "Error", context := "unknown" }

/-- Closed instance of `findErrors_entries_context`. -/
theorem findErrors_entries_context_witness :
    (∃ raw entry, (splitNl exLogError)[exErrorEntry.line - 1]? = some raw ∧
      parseLogLine (jsTrim raw) exErrorEntry.line = some entry ∧
      exErrorEntry.timestamp = entry.timestamp ∧ exErrorEntry.message = entry.message ∧
      exErrorEntry.category = entry.category ∧ exErrorEntry.level = entry.level) ∧
    (truthyS (FindErrorsOptions.runContext {}) = false → exErrorEntry.context = "unknown") ∧
    (truthyS (FindErrorsOptions.runContext {}) = true →
      exErrorEntry.context =
        getRunContextForLine exErrorEntry.line (buildGameStateIndex (some exLogError)) ∧
      FindErrorsOptions.runContext {} = some exErrorEntry.context) :=
  findErrors_entries_context exLogError {} exErrorEntry (by
    have h : (findErrors (some exLogError) {}).errors = [exErrorEntry] := rfl
    rw [h]
    exact List.mem_singleton_self exErrorEntry)

/-- **C9, counterexample to the claim as stated.**  With no `runContext`
filter requested, `findErrors` returns the error record of `exLogError`
with `context = "unknown"`, although the run-context index resolves its
line to `"edit"` — so the returned entry does *not* carry the resolved
run-context of its line. -/
theorem findErrors_entries_context_counterexample :
    ((findErrors (some exLogError) {}).errors.map (fun e => e.context)) = ["unknown"] ∧
    getRunContextForLine 1 (buildGameStateIndex (some exLogError)) = "edit" :=
  ⟨rfl, rfl⟩

/-! ### The run-context index partitions the line-number space -/

theorem buildGameStateLoop_append (lines : List String) :
    ∀ (i : Nat) (stName : String) (csl : Nat) (cst : String) (acc : List StateRange),
      buildGameStateLoop lines i stName csl cst acc =
        acc ++ buildGameStateLoop lines i stName csl cst [] := by
  induction lines with
  | nil =>
    intro i stName csl cst acc
    simp only [buildGameStateLoop]
    split
    · simp
    · simp
  | cons line rest ih =>
    intro i stName csl cst acc
    simp only [buildGameStateLoop]
    split
    · exact ih (i + 1) stName csl cst acc
    · split
      · exact ih (i + 1) stName csl cst acc
      · rename_i newState hexec
        generalize (match parseLogLine (jsTrim line) (i + 1) with
          | some e => e.timestamp
          | none => "") = ts
        by_cases hcsl : 0 < csl
        · rw [if_pos hcsl, if_pos hcsl]
          conv_lhs => rw [ih]
          conv_rhs => rw [ih]
          simp
        · rw [if_neg hcsl, if_neg hcsl]
          exact ih (i + 1) newState (i + 1) ts acc

theorem buildGameStateLoop_spec :
    ∀ (lines : List String) (i : Nat) (stName : String) (csl : Nat) (cst : String),
      1 ≤ csl → csl ≤ i + 1 →
      (∃ r t, buildGameStateLoop lines i stName csl cst [] = r :: t ∧
        r.startLine = csl ∧ r.state = stName) ∧
      chainFrom (csl : Int) (buildGameStateLoop lines i stName csl cst []) ∧
      ((buildGameStateLoop lines i stName csl cst []).map
        (closedLen ((i + lines.length : Nat) : Int))).sum =
        ((i + lines.length : Nat) : Int) - (csl : Int) + 1 ∧
      (∀ r, (buildGameStateLoop lines i stName csl cst []).getLast? = some r →
        r.endLine = -1)
  | [], i, stName, csl, cst, h1, h2 => by
    simp only [buildGameStateLoop]
    rw [if_pos (by omega)]
    refine ⟨⟨_, [], rfl, rfl, rfl⟩, by simp [chainFrom], ?_, by simp⟩
    simp [closedLen]
  | line :: rest, i, stName, csl, cst, h1, h2 => by
    simp only [buildGameStateLoop]
    split
    · have ih := buildGameStateLoop_spec rest (i + 1) stName csl cst h1 (by omega)
      have hn : i + (line :: rest).length = (i + 1) + rest.length := by
        simp; omega
      rw [hn]
      exact ih
    · split
      · have ih := buildGameStateLoop_spec rest (i + 1) stName csl cst h1 (by omega)
        have hn : i + (line :: rest).length = (i + 1) + rest.length := by
          simp; omega
        rw [hn]
        exact ih
      · rename_i newState hexec
        generalize (match parseLogLine (jsTrim line) (i + 1) with
          | some e => e.timestamp
          | none => "") = ts
        rw [if_pos (by omega : 0 < csl), List.nil_append]
        rw [buildGameStateLoop_append rest (i + 1) newState (i + 1) ts]
        have ih := buildGameStateLoop_spec rest (i + 1) newState (i + 1) ts (by omega)
          (by omega)
        obtain ⟨⟨r', t', hR', hr1', hr2'⟩, hchain, hsum, hlast⟩ := ih
        have hn : i + (line :: rest).length = (i + 1) + rest.length := by
          simp; omega
        rw [hn]
        refine ⟨⟨_, _, by rw [List.singleton_append], rfl, rfl⟩, ?_, ?_, ?_⟩
        · rw [List.singleton_append, hR']
          simp only [chainFrom]
          refine ⟨by simp, by push_cast; omega, by push_cast; omega, ?_⟩
          have h4 : ((i + 1 : Nat) : Int) - 1 + 1 = ((i + 1 : Nat) : Int) := by ring
          rw [h4, ← hR']
          exact hchain
        · rw [List.singleton_append, List.map_cons, List.sum_cons, hsum]
          have hne : ((i + 1 : Nat) : Int) - 1 ≠ -1 := by push_cast; omega
          simp only [closedLen, if_neg hne]
          push_cast
          ring
        · intro r hr
          rw [List.singleton_append, hR', List.getLast?_cons_cons] at hr
          rw [hR'] at hlast
          exact hlast r hr

/-- **C5.** For every existing file, `buildGameStateIndex` returns a
non-empty list whose first range starts at line 1 in state `"Edit"`, whose
ranges are contiguous, non-overlapping and ordered (`chainFrom 1`: each
range starts exactly one line after the previous one closes, and
non-final ranges close at genuine lines), whose final range is open
(`endLine = -1`), and whose range lengths — with the open range read as
extending to the file's true last line — sum to the file's line count. -/
theorem buildGameStateIndex_partition (c : String) :
    buildGameStateIndex (some c) ≠ [] ∧
    (∀ r, (buildGameStateIndex (some c)).head? = some r →
      r.startLine = 1 ∧ r.state = "Edit") ∧
    chainFrom 1 (buildGameStateIndex (some c)) ∧
    ((buildGameStateIndex (some c)).map (closedLen ((splitNl c).length : Int))).sum =
      ((splitNl c).length : Int) ∧
    (∀ r, (buildGameStateIndex (some c)).getLast? = some r → r.endLine = -1) := by
  obtain ⟨⟨r, t, hR, hr1, hr2⟩, hchain, hsum, hlast⟩ :=
    buildGameStateLoop_spec (splitNl c) 0 "Edit" 1 "" (by omega) (by omega)
  have hidx : buildGameStateIndex (some c) =
      buildGameStateLoop (splitNl c) 0 "Edit" 1 "" [] := rfl
  rw [hidx]
  refine ⟨by rw [hR]; simp, ?_, ?_, ?_, hlast⟩
  · intro r0 hr0
    rw [hR] at hr0
    simp only [List.head?_cons, Option.some.injEq] at hr0
    subst hr0
    exact ⟨hr1, hr2⟩
  · have h1 : ((1 : Nat) : Int) = 1 := by omega
    rw [← h1]
    exact hchain
  · rw [show ((splitNl c).length : Int) = ((0 + (splitNl c).length : Nat) : Int) by omega]
    rw [hsum]
    omega

/-- **C8 (amended).** `getRunContextForLine` maps a line exactly as the
classification table `classifyState` applied to the containing ranges: the
first containing range whose *lowercased* label contains a server/client
marker substring yields `"play"`, an edit marker yields `"edit"`, and with
no recognised marker in any containing range the result is `"unknown"`.
Because the label is lowercased before the substring test, the matching is
case-insensitive in the label (this is the amendment: the claim's
"case-sensitive" is refuted by `getRunContextForLine_case_counterexample`). -/
theorem getRunContextForLine_eq_ctxSpec (lineNum : Nat) :
    ∀ ranges, getRunContextForLine lineNum ranges = ctxSpec lineNum ranges := by
  intro ranges
  induction ranges with
  | nil => rfl
  | cons r rest ih =>
    dsimp only [getRunContextForLine, ctxSpec]
    by_cases hin : r.startLine ≤ lineNum ∧ (r.endLine = -1 ∨ (lineNum : Int) ≤ r.endLine)
    · rw [if_pos hin]
      have hb : lineInRange lineNum r = true := by
        simp only [lineInRange, Bool.and_eq_true, Bool.or_eq_true, decide_eq_true_eq]
        exact ⟨hin.1, hin.2⟩
      rw [List.filter_cons_of_pos hb]
      simp only [List.filterMap_cons]
      unfold classifyState
      by_cases h1 : (strContains (jsToLower r.state) "server" ||
          strContains (jsToLower r.state) "client") = true
      · rw [if_pos h1]
        simp only [h1, if_true]
        rfl
      · rw [if_neg h1]
        simp only [Bool.not_eq_true] at h1
        simp only [h1, Bool.false_eq_true, if_false]
        by_cases h2 : strContains (jsToLower r.state) "edit" = true
        · rw [if_pos h2]
          simp only [h2, if_true]
          rfl
        · rw [if_neg h2]
          simp only [Bool.not_eq_true] at h2
          simp only [h2, Bool.false_eq_true, if_false]
          exact ih
    · rw [if_neg hin]
      have hb : lineInRange lineNum r = false := by
        simp only [lineInRange, Bool.and_eq_false_iff]
        by_cases ha : r.startLine ≤ lineNum
        · right
          simp only [Bool.or_eq_false_iff, decide_eq_false_iff_not]
          constructor
          · intro he
            exact hin ⟨ha, Or.inl he⟩
          · intro hl
            exact hin ⟨ha, Or.inr hl⟩
        · left
          simpa using ha
      rw [List.filter_cons_of_neg (by simp [hb])]
      exact ih

/-- **C8, counterexample to the claim as stated.**  The label `"EDIT"`
differs only in letter case from the edit-mode marker, so under the
claimed case-sensitive matching it would map to `"unknown"`; the code
lowercases the label first and maps it to `"edit"`. -/
theorem getRunContextForLine_case_counterexample :
    getRunContextForLine 5
      [{ state := "EDIT", startLine := 1, endLine := -1, startTime := "", endTime := "" }] =
      "edit" ∧ "EDIT" ≠ "edit" := by
  constructor
  · rfl
  · decide
